import Mathlib

/-!
Shallow embedding of the FuturesDash core: the change computation
(compute_change) and the market signal engine (analyze_market), translated
from src/FuturesDash.py.  Prices are modelled as rationals; a pandas
timestamp is modelled as a calendar date together with an intraday time;
Python None is modelled by Option.
-/

/-- One row of the price DataFrame: a timestamp (calendar date plus
intraday time) and a closing price. -/
structure PriceObs where
  date : Int
  time : Int
  close : Rat
deriving DecidableEq

/-- Timestamp order on observations: by date, then by intraday time. -/
def tsLE (a b : PriceObs) : Prop :=
  a.date < b.date ∨ (a.date = b.date ∧ a.time ≤ b.time)

instance (a b : PriceObs) : Decidable (tsLE a b) :=
  inferInstanceAs (Decidable (a.date < b.date ∨ (a.date = b.date ∧ a.time ≤ b.time)))

/-- Embedding of sorted(set(df.index.date)) at line 57: the distinct
calendar dates of the series, in ascending order. -/
def sortedDates (df : List PriceObs) : List Int :=
  ((df.map PriceObs.date).dedup).insertionSort (fun a b => a ≤ b)

/-- Embedding of df[df.index.date == d].Close.iloc[-1] at lines 62-63:
the close of the last observation whose date is d, or none when no
observation has date d (the IndexError case). -/
def lastCloseOn (df : List PriceObs) (d : Int) : Option Rat :=
  ((df.filter (fun o => o.date == d)).getLast?).map PriceObs.close

/-- Embedding of compute_change (lines 48-72).  Returns the tuple
(change, reference price, latest price), each component possibly None.
days[-1] and days[-2] are read off the reversed sorted date list; the
first match branch is the two-or-more-days path, the fallback branch is
the single-day path using the first and last closes of the whole series. -/
def compute_change (df : List PriceObs) : Option Rat × Option Rat × Option Rat :=
  match df with
  | [] => (none, none, none)
  | o :: rest =>
    match (sortedDates (o :: rest)).reverse with
    | current_day :: prev_day :: _ =>
      match lastCloseOn (o :: rest) prev_day, lastCloseOn (o :: rest) current_day with
      | some prev_close, some current_latest =>
        (some ((current_latest - prev_close) / prev_close * 100),
          some prev_close, some current_latest)
      | _, _ => (none, none, none)
    | _ =>
      let open_price := o.close
      let latest_price := (List.getLast (o :: rest) (List.cons_ne_nil o rest)).close
      (some ((latest_price - open_price) / open_price * 100),
        some open_price, some latest_price)

/-- The changes dict passed to analyze_market: association list from
ticker symbol to an optional change percentage. -/
abbrev ChangeMap := List (String × Option Rat)

/-- Embedding of changes.get(k) (lines 93-101): none both when the key
is absent and when the stored value is None. -/
def cmGet (changes : ChangeMap) (k : String) : Option Rat :=
  match changes.lookup k with
  | some v => v
  | none => none

def bullishLabel : String :=
  "Bullish: S&P 500 and Nasdaq rising with falling 10-Year Treasury yields indicate strong market sentiment."

def bearishLabel : String :=
  "Bearish: Declines across equity futures combined with rising volatility or safe-haven assets suggest a risk-off environment."

def defensiveLabel : String :=
  "Defensive Rotation: Stable S&P 500 but weakness in Nasdaq and Russell 2000 implies investors may be shifting toward blue-chip stocks."

def inflationLabel : String :=
  "Inflation Concerns: A falling S&P 500 alongside rising crude oil and a stronger dollar may point to inflationary pressures."

def noSignalLabel : String :=
  "No dominant signal detected; the market could trade sideways or await further catalysts."

/-- Lines 103-106: the bullish rule fires when ES, NQ and ZN are all
defined and ES > 0, NQ > 0, ZN < 0. -/
def bullishFires (changes : ChangeMap) : Bool :=
  match cmGet changes "ES=F", cmGet changes "NQ=F", cmGet changes "ZN=F" with
  | some es, some nq, some zn => decide (es > 0 ∧ nq > 0 ∧ zn < 0)
  | _, _, _ => false

/-- Lines 108-111: the bearish rule fires when ES, NQ, RTY, VX, GC and ZN
are all defined and ES < 0, NQ < 0, RTY < 0 and one of VX > 0, GC > 0,
ZN > 0 holds. -/
def bearishFires (changes : ChangeMap) : Bool :=
  match cmGet changes "ES=F", cmGet changes "NQ=F", cmGet changes "RTY=F",
      cmGet changes "VX=F", cmGet changes "GC=F", cmGet changes "ZN=F" with
  | some es, some nq, some rty, some vx, some gc, some zn =>
    decide (es < 0 ∧ nq < 0 ∧ rty < 0 ∧ (vx > 0 ∨ gc > 0 ∨ zn > 0))
  | _, _, _, _, _, _ => false

/-- Lines 113-116: the defensive rotation rule fires when ES, NQ and RTY
are all defined and abs ES < 0.5, NQ < 0, RTY < 0. -/
def defensiveFires (changes : ChangeMap) : Bool :=
  match cmGet changes "ES=F", cmGet changes "NQ=F", cmGet changes "RTY=F" with
  | some es, some nq, some rty => decide (|es| < 0.5 ∧ nq < 0 ∧ rty < 0)
  | _, _, _ => false

/-- Lines 118-121: the inflation rule fires when ES, CL and DXY are all
defined and ES < 0, CL > 0, DXY > 0. -/
def inflationFires (changes : ChangeMap) : Bool :=
  match cmGet changes "ES=F", cmGet changes "CL=F", cmGet changes "DX-Y.NYB" with
  | some es, some cl, some dxy => decide (es < 0 ∧ cl > 0 ∧ dxy > 0)
  | _, _, _ => false

/-- The signals list built by the four sequential append statements of
lines 92-121, in source order. -/
def firedSignals (changes : ChangeMap) : List String :=
  (if bullishFires changes then [bullishLabel] else [])
    ++ (if bearishFires changes then [bearishLabel] else [])
    ++ (if defensiveFires changes then [defensiveLabel] else [])
    ++ (if inflationFires changes then [inflationLabel] else [])

/-- Embedding of analyze_market (lines 83-126): evaluate the four rules
in order, then fall back to the no-signal message when nothing fired. -/
def analyze_market (changes : ChangeMap) : List String :=
  let signals := firedSignals changes
  if signals = [] then [noSignalLabel] else signals

/-! ### Helper lemmas about the date partition and the date lookups -/

theorem mem_sortedDates {df : List PriceObs} {d : Int} :
    d ∈ sortedDates df ↔ d ∈ df.map PriceObs.date := by
  unfold sortedDates
  rw [(List.perm_insertionSort _ _).mem_iff, List.mem_dedup]

theorem lastCloseOn_isSome {df : List PriceObs} {d : Int}
    (h : d ∈ sortedDates df) : (lastCloseOn df d).isSome = true := by
  rcases List.mem_map.mp (mem_sortedDates.mp h) with ⟨o, ho, hod⟩
  have hmem : o ∈ df.filter (fun o => o.date == d) :=
    List.mem_filter.mpr ⟨ho, by simp [hod]⟩
  have hs := List.getLast?_isSome.mpr (List.ne_nil_of_mem hmem)
  rcases Option.isSome_iff_exists.mp hs with ⟨x, hx⟩
  unfold lastCloseOn
  rw [hx]
  rfl

theorem sortedDates_ne_nil (o : PriceObs) (rest : List PriceObs) :
    sortedDates (o :: rest) ≠ [] := by
  have : o.date ∈ sortedDates (o :: rest) := mem_sortedDates.mpr (by simp)
  exact List.ne_nil_of_mem this

/-- C7: under a well-formed series (the date list is derived from the
series itself), whenever two or more distinct dates are present, both
date lookups of the two-day branch succeed, so the defensive IndexError
branch is unreachable and compute_change does not return the
all-undefined sentinel. -/
theorem date_lookups_succeed (df : List PriceObs) (c p : Int) (tl : List Int)
    (hdays : (sortedDates df).reverse = c :: p :: tl) :
    (lastCloseOn df p).isSome = true ∧ (lastCloseOn df c).isSome = true ∧
      compute_change df ≠ (none, none, none) := by
  have hp : p ∈ sortedDates df := by
    have : p ∈ (sortedDates df).reverse := by rw [hdays]; simp
    simpa using this
  have hc : c ∈ sortedDates df := by
    have : c ∈ (sortedDates df).reverse := by rw [hdays]; simp
    simpa using this
  have h1 := lastCloseOn_isSome hp
  have h2 := lastCloseOn_isSome hc
  refine ⟨h1, h2, ?_⟩
  cases df with
  | nil => simp [sortedDates, List.dedup, List.insertionSort] at hdays
  | cons o rest =>
    rcases Option.isSome_iff_exists.mp h1 with ⟨r, hr⟩
    rcases Option.isSome_iff_exists.mp h2 with ⟨l, hl⟩
    simp [compute_change, hdays, hr, hl]

/-- C7 witness: a concrete two-day series on which the lookups of the
two-day branch succeed. -/
theorem date_lookups_succeed_witness :
    (sortedDates [⟨5, 0, 10⟩, ⟨6, 0, 12⟩]).reverse = [6, 5] ∧
      (lastCloseOn [⟨5, 0, 10⟩, ⟨6, 0, 12⟩] 5).isSome = true ∧
      (lastCloseOn [⟨5, 0, 10⟩, ⟨6, 0, 12⟩] 6).isSome = true ∧
      compute_change [⟨5, 0, 10⟩, ⟨6, 0, 12⟩] ≠ (none, none, none) := by
  have h := date_lookups_succeed [⟨5, 0, 10⟩, ⟨6, 0, 12⟩] 6 5 [] (by decide)
  exact ⟨by decide, h.1, h.2.1, h.2.2⟩

/-- C1: for a sorted non-empty series whose distinct-date list has at
least two entries (last date c, second-to-last date p), compute_change
returns exactly the last close on p as reference price, the last close
on c as latest price, and the percentage-change formula applied to them. -/
theorem compute_change_two_days (o : PriceObs) (rest : List PriceObs) (c p : Int) (tl : List Int)
    (_hsorted : List.Chain' tsLE (o :: rest))
    (hdays : (sortedDates (o :: rest)).reverse = c :: p :: tl) :
    ∃ refP latestP, lastCloseOn (o :: rest) p = some refP ∧
      lastCloseOn (o :: rest) c = some latestP ∧
      compute_change (o :: rest) =
        (some ((latestP - refP) / refP * 100), some refP, some latestP) := by
  have hp : p ∈ sortedDates (o :: rest) := by
    have : p ∈ (sortedDates (o :: rest)).reverse := by rw [hdays]; simp
    simpa using this
  have hc : c ∈ sortedDates (o :: rest) := by
    have : c ∈ (sortedDates (o :: rest)).reverse := by rw [hdays]; simp
    simpa using this
  rcases Option.isSome_iff_exists.mp (lastCloseOn_isSome hp) with ⟨r, hr⟩
  rcases Option.isSome_iff_exists.mp (lastCloseOn_isSome hc) with ⟨l, hl⟩
  exact ⟨r, l, hr, hl, by simp [compute_change, hdays, hr, hl]⟩

/-- C1 witness: the concrete two-day series ending at close 100 on the
first day and close 102 on the second, giving a 2 percent change. -/
theorem compute_change_two_days_witness :
    List.Chain' tsLE [⟨0, 0, 100⟩, ⟨1, 0, 102⟩] ∧
      (sortedDates [⟨0, 0, 100⟩, ⟨1, 0, 102⟩]).reverse = [1, 0] ∧
      compute_change [⟨0, 0, 100⟩, ⟨1, 0, 102⟩] = (some 2, some 100, some 102) := by
  refine ⟨?_, by decide, ?_⟩
  · exact List.chain'_cons.mpr ⟨Or.inl (by decide), List.chain'_singleton _⟩
  · obtain ⟨r, l, h1, h2, h3⟩ :=
      compute_change_two_days ⟨0, 0, 100⟩ [⟨1, 0, 102⟩] 1 0 []
        (List.chain'_cons.mpr ⟨Or.inl (by decide), List.chain'_singleton _⟩) (by decide)
    have hr : r = 100 := by
      have : some (100 : Rat) = some r := by
        rw [← h1]; simp [lastCloseOn, List.filter, List.getLast?, List.getLast]
      exact (Option.some.inj this).symm
    have hl : l = 102 := by
      have : some (102 : Rat) = some l := by
        rw [← h2]; simp [lastCloseOn, List.filter, List.getLast?, List.getLast]
      exact (Option.some.inj this).symm
    subst hr hl
    rw [h3]
    norm_num

/-- C2: for a non-empty series whose distinct-date list is a singleton,
compute_change returns the close of the first observation as reference
price, the close of the last observation as latest price, and the
percentage-change formula applied to them. -/
theorem compute_change_one_day (o : PriceObs) (rest : List PriceObs) (d : Int)
    (hdays : sortedDates (o :: rest) = [d]) :
    compute_change (o :: rest) =
      (some (((List.getLast (o :: rest) (List.cons_ne_nil o rest)).close - o.close)
          / o.close * 100),
        some o.close, some (List.getLast (o :: rest) (List.cons_ne_nil o rest)).close) := by
  have hrev : (sortedDates (o :: rest)).reverse = [d] := by rw [hdays]; rfl
  simp [compute_change, hrev]

/-- C2 witness: the concrete single-day series with closes 50, 51, 49,
giving reference 50, latest 49 and change -2 percent. -/
theorem compute_change_one_day_witness :
    sortedDates [⟨0, 0, 50⟩, ⟨0, 1, 51⟩, ⟨0, 2, 49⟩] = [0] ∧
      compute_change [⟨0, 0, 50⟩, ⟨0, 1, 51⟩, ⟨0, 2, 49⟩] = (some (-2), some 50, some 49) := by
  refine ⟨by decide, ?_⟩
  have h := compute_change_one_day ⟨0, 0, 50⟩ [⟨0, 1, 51⟩, ⟨0, 2, 49⟩] 0 (by decide)
  rw [h]
  norm_num [List.getLast]

/-- C3 counterexample: a series whose reference price is zero.  The code
still returns a defined triple (the division is not guarded), not the
all-undefined sentinel, refuting the claim that a zero reference price
yields the sentinel. -/
theorem compute_change_zero_ref_defined :
    (compute_change [⟨0, 0, 0⟩]).2.1 = some 0 ∧ (compute_change [⟨0, 0, 0⟩]).1 ≠ none := by
  decide

/-- C3 amended: compute_change returns the all-undefined sentinel exactly
when the input series is empty; the defensive date-lookup branch never
produces it, and a zero reference price still yields a defined triple. -/
theorem compute_change_none_iff (df : List PriceObs) :
    compute_change df = (none, none, none) ↔ df = [] := by
  constructor
  · intro h
    cases df with
    | nil => rfl
    | cons o rest =>
      exfalso
      cases hrev : (sortedDates (o :: rest)).reverse with
      | nil =>
        exact sortedDates_ne_nil o rest (by simpa using congrArg List.reverse hrev)
      | cons c tl' =>
        cases tl' with
        | nil => simp [compute_change, hrev] at h
        | cons p tl =>
          have hp : p ∈ sortedDates (o :: rest) := by
            have : p ∈ (sortedDates (o :: rest)).reverse := by rw [hrev]; simp
            simpa using this
          have hc : c ∈ sortedDates (o :: rest) := by
            have : c ∈ (sortedDates (o :: rest)).reverse := by rw [hrev]; simp
            simpa using this
          rcases Option.isSome_iff_exists.mp (lastCloseOn_isSome hp) with ⟨r, hr⟩
          rcases Option.isSome_iff_exists.mp (lastCloseOn_isSome hc) with ⟨l, hl⟩
          simp [compute_change, hrev, hr, hl] at h
  · intro h
    subst h
    rfl

/-- C3 witness: the sentinel appears for the empty series and does not
appear for a concrete non-empty series. -/
theorem compute_change_none_iff_witness :
    compute_change [] = (none, none, none) ∧
      compute_change [⟨0, 0, 50⟩] ≠ (none, none, none) := by
  refine ⟨(compute_change_none_iff []).mpr rfl, fun h => ?_⟩
  have := (compute_change_none_iff [⟨0, 0, 50⟩]).mp h
  simp at this

/-- C8: the result of compute_change is never partially defined; either
all three components are none or all three are some. -/
theorem compute_change_all_or_none (df : List PriceObs) :
    compute_change df = (none, none, none) ∨
      ∃ ch r l, compute_change df = (some ch, some r, some l) := by
  cases df with
  | nil => exact Or.inl rfl
  | cons o rest =>
    cases hrev : (sortedDates (o :: rest)).reverse with
    | nil =>
      exact Or.inr ⟨(((o :: rest).getLast (List.cons_ne_nil o rest)).close - o.close)
          / o.close * 100, o.close, ((o :: rest).getLast (List.cons_ne_nil o rest)).close,
        by simp [compute_change, hrev]⟩
    | cons c tl' =>
      cases tl' with
      | nil =>
        exact Or.inr ⟨(((o :: rest).getLast (List.cons_ne_nil o rest)).close - o.close)
            / o.close * 100, o.close, ((o :: rest).getLast (List.cons_ne_nil o rest)).close,
          by simp [compute_change, hrev]⟩
      | cons p tl =>
        cases hr : lastCloseOn (o :: rest) p with
        | none => exact Or.inl (by simp [compute_change, hrev, hr])
        | some r =>
          cases hl : lastCloseOn (o :: rest) c with
          | none => exact Or.inl (by simp [compute_change, hrev, hr, hl])
          | some l =>
            exact Or.inr ⟨(l - r) / r * 100, r, l, by simp [compute_change, hrev, hr, hl]⟩

/-! ### Helper lemmas about the signal engine -/

theorem mem_firedSignals {m : ChangeMap} {s : String} :
    s ∈ firedSignals m ↔
      (bullishFires m = true ∧ s = bullishLabel) ∨
      (bearishFires m = true ∧ s = bearishLabel) ∨
      (defensiveFires m = true ∧ s = defensiveLabel) ∨
      (inflationFires m = true ∧ s = inflationLabel) := by
  unfold firedSignals
  by_cases h1 : bullishFires m <;> by_cases h2 : bearishFires m <;>
    by_cases h3 : defensiveFires m <;> by_cases h4 : inflationFires m <;>
    simp [h1, h2, h3, h4]

theorem noSignal_not_fired (m : ChangeMap) : noSignalLabel ∉ firedSignals m := by
  rw [mem_firedSignals]
  simp [bullishLabel, bearishLabel, defensiveLabel, inflationLabel, noSignalLabel]

theorem firedSignals_sublist (m : ChangeMap) :
    List.Sublist (firedSignals m) [bullishLabel, bearishLabel, defensiveLabel, inflationLabel] := by
  unfold firedSignals
  have h1 : List.Sublist (if bullishFires m then [bullishLabel] else []) [bullishLabel] := by
    by_cases h : bullishFires m <;> simp [h]
  have h2 : List.Sublist (if bearishFires m then [bearishLabel] else []) [bearishLabel] := by
    by_cases h : bearishFires m <;> simp [h]
  have h3 : List.Sublist (if defensiveFires m then [defensiveLabel] else []) [defensiveLabel] := by
    by_cases h : defensiveFires m <;> simp [h]
  have h4 : List.Sublist (if inflationFires m then [inflationLabel] else []) [inflationLabel] := by
    by_cases h : inflationFires m <;> simp [h]
  simpa [List.append_assoc] using h1.append (h2.append (h3.append h4))

theorem analyze_market_eq (m : ChangeMap) :
    analyze_market m = if firedSignals m = [] then [noSignalLabel] else firedSignals m := rfl

theorem not_mem_analyze_market {m : ChangeMap} {s : String}
    (hfs : s ∉ firedSignals m) (hns : s ≠ noSignalLabel) : s ∉ analyze_market m := by
  rw [analyze_market_eq]
  by_cases h : firedSignals m = [] <;> simp [h, hfs, hns]

/-- C4: each rule contributes its label only when every one of its
required symbols is defined in the change map; an undefined or absent
required symbol makes the rule skip, so its label is absent from the
output. -/
theorem rules_skip_on_undefined (m : ChangeMap) :
    ((cmGet m "ES=F" = none ∨ cmGet m "NQ=F" = none ∨ cmGet m "ZN=F" = none) →
      bullishLabel ∉ analyze_market m) ∧
    ((cmGet m "ES=F" = none ∨ cmGet m "NQ=F" = none ∨ cmGet m "RTY=F" = none ∨
        cmGet m "VX=F" = none ∨ cmGet m "GC=F" = none ∨ cmGet m "ZN=F" = none) →
      bearishLabel ∉ analyze_market m) ∧
    ((cmGet m "ES=F" = none ∨ cmGet m "NQ=F" = none ∨ cmGet m "RTY=F" = none) →
      defensiveLabel ∉ analyze_market m) ∧
    ((cmGet m "ES=F" = none ∨ cmGet m "CL=F" = none ∨ cmGet m "DX-Y.NYB" = none) →
      inflationLabel ∉ analyze_market m) := by
  refine ⟨fun h => ?_, fun h => ?_, fun h => ?_, fun h => ?_⟩
  · have hb : bullishFires m = false := by
      unfold bullishFires
      split
      · rcases h with h | h | h <;> simp_all
      · rfl
    refine not_mem_analyze_market ?_ (by simp [bullishLabel, noSignalLabel])
    rw [mem_firedSignals]
    simp [hb, bullishLabel, bearishLabel, defensiveLabel, inflationLabel]
  · have hb : bearishFires m = false := by
      unfold bearishFires
      split
      · rcases h with h | h | h | h | h | h <;> simp_all
      · rfl
    refine not_mem_analyze_market ?_ (by simp [bearishLabel, noSignalLabel])
    rw [mem_firedSignals]
    simp [hb, bullishLabel, bearishLabel, defensiveLabel, inflationLabel]
  · have hb : defensiveFires m = false := by
      unfold defensiveFires
      split
      · rcases h with h | h | h <;> simp_all
      · rfl
    refine not_mem_analyze_market ?_ (by simp [defensiveLabel, noSignalLabel])
    rw [mem_firedSignals]
    simp [hb, bullishLabel, bearishLabel, defensiveLabel, inflationLabel]
  · have hb : inflationFires m = false := by
      unfold inflationFires
      split
      · rcases h with h | h | h <;> simp_all
      · rfl
    refine not_mem_analyze_market ?_ (by simp [inflationLabel, noSignalLabel])
    rw [mem_firedSignals]
    simp [hb, bullishLabel, bearishLabel, defensiveLabel, inflationLabel]

/-- C4 witness: in the empty change map every symbol is absent, so no
rule label appears. -/
theorem rules_skip_on_undefined_witness :
    cmGet [] "ES=F" = none ∧
      bullishLabel ∉ analyze_market [] ∧ bearishLabel ∉ analyze_market [] ∧
      defensiveLabel ∉ analyze_market [] ∧ inflationLabel ∉ analyze_market [] :=
  ⟨rfl, (rules_skip_on_undefined []).1 (Or.inl rfl),
    (rules_skip_on_undefined []).2.1 (Or.inl rfl),
    (rules_skip_on_undefined []).2.2.1 (Or.inl rfl),
    (rules_skip_on_undefined []).2.2.2 (Or.inl rfl)⟩

/-- C5: the output is the singleton fallback exactly when no rule fired,
the fallback never accompanies fired labels, and the output is never
empty. -/
theorem fallback_iff_no_rule (m : ChangeMap) :
    (analyze_market m = [noSignalLabel] ↔ firedSignals m = []) ∧
    (firedSignals m ≠ [] → noSignalLabel ∉ analyze_market m) ∧
    analyze_market m ≠ [] := by
  refine ⟨⟨fun h => ?_, fun h => by rw [analyze_market_eq, if_pos h]⟩, fun h => ?_, ?_⟩
  · by_contra hne
    rw [analyze_market_eq, if_neg hne] at h
    exact noSignal_not_fired m (by rw [h]; exact List.mem_singleton_self _)
  · rw [analyze_market_eq, if_neg h]
    exact noSignal_not_fired m
  · rw [analyze_market_eq]
    by_cases hf : firedSignals m = [] <;> simp [hf]

/-- C5 witness: for the empty change map no rule fires and the output is
exactly the non-empty fallback singleton. -/
theorem fallback_iff_no_rule_witness :
    analyze_market [] = [noSignalLabel] ∧ analyze_market [] ≠ [] :=
  ⟨(fallback_iff_no_rule []).1.mpr (by decide), (fallback_iff_no_rule []).2.2⟩

/-- C6: analyze_market depends on the change map only through its key
lookups (so any two maps with the same key-to-value associations give the
same output), and the output is either the fallback singleton or a
sublist of the labels in fixed rule-declaration order. -/
theorem analyze_market_extensional_ordered (m₁ m₂ : ChangeMap) :
    ((∀ k, cmGet m₁ k = cmGet m₂ k) → analyze_market m₁ = analyze_market m₂) ∧
    (analyze_market m₁ = [noSignalLabel] ∨
      List.Sublist (analyze_market m₁)
        [bullishLabel, bearishLabel, defensiveLabel, inflationLabel]) := by
  constructor
  · intro h
    simp only [analyze_market, firedSignals, bullishFires, bearishFires, defensiveFires,
      inflationFires, h]
  · rw [analyze_market_eq]
    by_cases hf : firedSignals m₁ = []
    · left
      rw [if_pos hf]
    · right
      rw [if_neg hf]
      exact firedSignals_sublist m₁

/-- C6 witness: two concrete change maps with the same associations in
different insertion order produce the same output. -/
theorem analyze_market_extensional_ordered_witness :
    analyze_market [("ES=F", some 1), ("YM=F", some 2)] =
      analyze_market [("YM=F", some 2), ("ES=F", some 1)] :=
  (analyze_market_extensional_ordered
      [("ES=F", some 1), ("YM=F", some 2)] [("YM=F", some 2), ("ES=F", some 1)]).1 (by
    intro k
    by_cases h1 : k = "ES=F"
    · subst h1; decide
    · by_cases h2 : k = "YM=F"
      · subst h2; decide
      · have e1 : (k == "ES=F") = false := beq_eq_false_iff_ne.mpr h1
        have e2 : (k == "YM=F") = false := beq_eq_false_iff_ne.mpr h2
        simp [cmGet, List.lookup, e1, e2])

/-- C9: the bullish predicate is incompatible with every other rule
predicate, so whenever the bullish label appears in the output it is the
only label in the output. -/
theorem bullish_exclusive (m : ChangeMap) (h : bullishLabel ∈ analyze_market m) :
    analyze_market m = [bullishLabel] := by
  have hmem : bullishLabel ∈ firedSignals m := by
    by_cases hf : firedSignals m = []
    · rw [analyze_market_eq, if_pos hf] at h
      simp [bullishLabel, noSignalLabel] at h
    · rwa [analyze_market_eq, if_neg hf] at h
  have hb : bullishFires m = true := by
    rcases mem_firedSignals.mp hmem with ⟨hb, _⟩ | ⟨_, he⟩ | ⟨_, he⟩ | ⟨_, he⟩
    · exact hb
    all_goals simp [bullishLabel, bearishLabel, defensiveLabel, inflationLabel] at he
  rcases hE : cmGet m "ES=F" with _ | es
  · unfold bullishFires at hb; rw [hE] at hb; simp at hb
  rcases hN : cmGet m "NQ=F" with _ | nq
  · unfold bullishFires at hb; rw [hE, hN] at hb; simp at hb
  rcases hZ : cmGet m "ZN=F" with _ | zn
  · unfold bullishFires at hb; rw [hE, hN, hZ] at hb; simp at hb
  have hcond : es > 0 ∧ nq > 0 ∧ zn < 0 := by
    unfold bullishFires at hb
    rw [hE, hN, hZ] at hb
    simpa using hb
  have hnes : ¬ es < 0 := not_lt.mpr (le_of_lt hcond.1)
  have hnnq : ¬ nq < 0 := not_lt.mpr (le_of_lt hcond.2.1)
  have hbe : bearishFires m = false := by
    unfold bearishFires
    rw [hE, hN, hZ]
    rcases cmGet m "RTY=F" with _ | rty
    · rfl
    rcases cmGet m "VX=F" with _ | vx
    · rfl
    rcases cmGet m "GC=F" with _ | gc
    · rfl
    simp [hnes]
  have hd : defensiveFires m = false := by
    unfold defensiveFires
    rw [hE, hN]
    rcases cmGet m "RTY=F" with _ | rty
    · rfl
    simp [hnnq]
  have hi : inflationFires m = false := by
    unfold inflationFires
    rw [hE]
    rcases cmGet m "CL=F" with _ | cl
    · rfl
    rcases cmGet m "DX-Y.NYB" with _ | dxy
    · rfl
    simp [hnes]
  have hfs : firedSignals m = [bullishLabel] := by
    simp [firedSignals, hb, hbe, hd, hi]
  rw [analyze_market_eq, hfs]
  simp

/-- C9 witness: a concrete bullish change map whose output is exactly the
bullish label. -/
theorem bullish_exclusive_witness :
    bullishLabel ∈ analyze_market [("ES=F", some 1), ("NQ=F", some 1), ("ZN=F", some (-1))] ∧
      analyze_market [("ES=F", some 1), ("NQ=F", some 1), ("ZN=F", some (-1))] =
        [bullishLabel] := by
  have h : bullishLabel ∈
      analyze_market [("ES=F", some 1), ("NQ=F", some 1), ("ZN=F", some (-1))] := by decide
  exact ⟨h, bullish_exclusive _ h⟩

/-- C10: the output depends only on the eight keys the rules read; any
two change maps agreeing on those keys, regardless of other keys such as
YM=F, give identical outputs. -/
theorem analyze_market_depends_only_on_rule_keys (m₁ m₂ : ChangeMap)
    (hes : cmGet m₁ "ES=F" = cmGet m₂ "ES=F")
    (hnq : cmGet m₁ "NQ=F" = cmGet m₂ "NQ=F")
    (hrty : cmGet m₁ "RTY=F" = cmGet m₂ "RTY=F")
    (hzn : cmGet m₁ "ZN=F" = cmGet m₂ "ZN=F")
    (hvx : cmGet m₁ "VX=F" = cmGet m₂ "VX=F")
    (hcl : cmGet m₁ "CL=F" = cmGet m₂ "CL=F")
    (hgc : cmGet m₁ "GC=F" = cmGet m₂ "GC=F")
    (hdxy : cmGet m₁ "DX-Y.NYB" = cmGet m₂ "DX-Y.NYB") :
    analyze_market m₁ = analyze_market m₂ := by
  simp only [analyze_market, firedSignals, bullishFires, bearishFires, defensiveFires,
    inflationFires, hes, hnq, hrty, hzn, hvx, hcl, hgc, hdxy]

/-- C10 witness: the empty map and a map carrying only YM=F and ZB=F give
the same output, since neither defines any rule key. -/
theorem analyze_market_depends_only_on_rule_keys_witness :
    analyze_market [] = analyze_market [("YM=F", some 5), ("ZB=F", some (-3))] :=
  analyze_market_depends_only_on_rule_keys [] [("YM=F", some 5), ("ZB=F", some (-3))]
    (by decide) (by decide) (by decide) (by decide) (by decide) (by decide) (by decide)
    (by decide)
